/-
Verification of the multi-view renderer (render.py / render_improved.py).

The geometric core of the renderer is embedded over the real numbers:
numpy 3-vectors become `Vec3`, the 3x3 rotation blocks of the 4x4
homogeneous matrices produced by `trimesh.transformations.rotation_matrix`
become `Mat3` (every transform the renderer builds is rigid with zero
translation except `look_at`, whose translation part is modelled in
`Mat4`).  Floating-point arithmetic is idealized as real arithmetic; the
spec states its numeric properties "within floating tolerance", and the
corresponding theorems here are exact statements over the reals.
-/
import Mathlib

/-- A 3-vector, the embedding of a numpy array of shape 3. -/
@[ext]
structure Vec3 where
  x : ℝ
  y : ℝ
  z : ℝ

def Vec3.zero : Vec3 := ⟨0, 0, 0⟩

def Vec3.add (a b : Vec3) : Vec3 := ⟨a.x + b.x, a.y + b.y, a.z + b.z⟩

def Vec3.sub (a b : Vec3) : Vec3 := ⟨a.x - b.x, a.y - b.y, a.z - b.z⟩

def Vec3.neg (a : Vec3) : Vec3 := ⟨-a.x, -a.y, -a.z⟩

def Vec3.smul (k : ℝ) (a : Vec3) : Vec3 := ⟨k * a.x, k * a.y, k * a.z⟩

/-- np.dot on 3-vectors. -/
def Vec3.dot (a b : Vec3) : ℝ := a.x * b.x + a.y * b.y + a.z * b.z

/-- np.cross on 3-vectors. -/
def Vec3.cross (a b : Vec3) : Vec3 :=
  ⟨a.y * b.z - a.z * b.y, a.z * b.x - a.x * b.z, a.x * b.y - a.y * b.x⟩

def Vec3.normSq (a : Vec3) : ℝ := a.x * a.x + a.y * a.y + a.z * a.z

/-- np.linalg.norm on 3-vectors. -/
noncomputable def Vec3.norm (a : Vec3) : ℝ := Real.sqrt a.normSq

/-- The idiom `v /= np.linalg.norm(v)` used throughout the source. -/
noncomputable def Vec3.normalize (a : Vec3) : Vec3 := Vec3.smul (1 / a.norm) a

/-- A 3x3 real matrix: the rotation block of the 4x4 transforms built by
the renderer (their translation part is zero and their bottom row is
0 0 0 1 for every rotation the view tables produce). -/
@[ext]
structure Mat3 where
  m00 : ℝ
  m01 : ℝ
  m02 : ℝ
  m10 : ℝ
  m11 : ℝ
  m12 : ℝ
  m20 : ℝ
  m21 : ℝ
  m22 : ℝ

def Mat3.id : Mat3 := ⟨1, 0, 0, 0, 1, 0, 0, 0, 1⟩

def Mat3.transpose (A : Mat3) : Mat3 :=
  ⟨A.m00, A.m10, A.m20, A.m01, A.m11, A.m21, A.m02, A.m12, A.m22⟩

def Mat3.mul (A B : Mat3) : Mat3 :=
  ⟨A.m00 * B.m00 + A.m01 * B.m10 + A.m02 * B.m20,
   A.m00 * B.m01 + A.m01 * B.m11 + A.m02 * B.m21,
   A.m00 * B.m02 + A.m01 * B.m12 + A.m02 * B.m22,
   A.m10 * B.m00 + A.m11 * B.m10 + A.m12 * B.m20,
   A.m10 * B.m01 + A.m11 * B.m11 + A.m12 * B.m21,
   A.m10 * B.m02 + A.m11 * B.m12 + A.m12 * B.m22,
   A.m20 * B.m00 + A.m21 * B.m10 + A.m22 * B.m20,
   A.m20 * B.m01 + A.m21 * B.m11 + A.m22 * B.m21,
   A.m20 * B.m02 + A.m21 * B.m12 + A.m22 * B.m22⟩

def Mat3.mulVec (A : Mat3) (v : Vec3) : Vec3 :=
  ⟨A.m00 * v.x + A.m01 * v.y + A.m02 * v.z,
   A.m10 * v.x + A.m11 * v.y + A.m12 * v.z,
   A.m20 * v.x + A.m21 * v.y + A.m22 * v.z⟩

def Mat3.det (A : Mat3) : ℝ :=
  A.m00 * (A.m11 * A.m22 - A.m12 * A.m21)
  - A.m01 * (A.m10 * A.m22 - A.m12 * A.m20)
  + A.m02 * (A.m10 * A.m21 - A.m11 * A.m20)

/-- A proper rigid rotation: columns orthonormal (unit length, mutually
orthogonal, which is the equation transpose R * R = I) and determinant +1.
This is the invariant the spec states for every generated ViewSpec. -/
def Mat3.IsProper (A : Mat3) : Prop :=
  Mat3.mul (Mat3.transpose A) A = Mat3.id ∧ Mat3.det A = 1

/-- The matrix cos a * I + (1 - cos a) * outer d d + sin a * skew d built by
trimesh.transformations.rotation_matrix from a unit direction d and the
sine and cosine of the angle.  Field s is the sine, c the cosine. -/
def rodrigues (d : Vec3) (s c : ℝ) : Mat3 :=
  ⟨c + (1 - c) * d.x * d.x, (1 - c) * d.x * d.y - s * d.z, (1 - c) * d.x * d.z + s * d.y,
   (1 - c) * d.x * d.y + s * d.z, c + (1 - c) * d.y * d.y, (1 - c) * d.y * d.z - s * d.x,
   (1 - c) * d.x * d.z - s * d.y, (1 - c) * d.y * d.z + s * d.x, c + (1 - c) * d.z * d.z⟩

/-- trimesh.transformations.rotation_matrix(angle, direction) with no
rotation point: the direction is normalized internally and the Rodrigues
matrix of the angle about it is returned (rotation block only; its
translation part is zero). -/
noncomputable def rotationMatrix (angle : ℝ) (dir : Vec3) : Mat3 :=
  rodrigues dir.normalize (Real.sin angle) (Real.cos angle)

lemma normSq_nonneg (v : Vec3) : 0 ≤ v.normSq := by
  unfold Vec3.normSq
  nlinarith [sq_nonneg v.x, sq_nonneg v.y, sq_nonneg v.z]

lemma normSq_eq_zero_iff (v : Vec3) : v.normSq = 0 ↔ v = Vec3.zero := by
  constructor
  · intro h
    unfold Vec3.normSq at h
    have hx : v.x = 0 := by nlinarith [sq_nonneg v.x, sq_nonneg v.y, sq_nonneg v.z]
    have hy : v.y = 0 := by nlinarith [sq_nonneg v.x, sq_nonneg v.y, sq_nonneg v.z]
    have hz : v.z = 0 := by nlinarith [sq_nonneg v.x, sq_nonneg v.y, sq_nonneg v.z]
    ext <;> simp [hx, hy, hz, Vec3.zero]
  · intro h; subst h; simp [Vec3.normSq, Vec3.zero]

lemma norm_sq_eq_normSq (v : Vec3) : v.norm * v.norm = v.normSq := by
  unfold Vec3.norm
  exact Real.mul_self_sqrt (normSq_nonneg v)

lemma norm_pos_of_ne_zero {v : Vec3} (h : v ≠ Vec3.zero) : 0 < v.norm := by
  unfold Vec3.norm
  apply Real.sqrt_pos.mpr
  rcases lt_or_eq_of_le (normSq_nonneg v) with h1 | h1
  · exact h1
  · exact absurd ((normSq_eq_zero_iff v).mp h1.symm) h

lemma normSq_normalize {v : Vec3} (h : v ≠ Vec3.zero) : v.normalize.normSq = 1 := by
  have hp := norm_pos_of_ne_zero h
  have hsq := norm_sq_eq_normSq v
  unfold Vec3.normalize Vec3.smul Vec3.normSq at *
  field_simp
  nlinarith [hsq]

lemma normalize_of_normSq_one {v : Vec3} (h : v.normSq = 1) : v.normalize = v := by
  have hn : v.norm = 1 := by unfold Vec3.norm; rw [h]; exact Real.sqrt_one
  unfold Vec3.normalize Vec3.smul
  rw [hn]
  ext <;> simp

/-- np.isclose(a, b) with the default tolerances rtol = 1e-5, atol = 1e-8:
the absolute difference is at most atol + rtol * abs b. -/
def npIsClose (a b : ℝ) : Prop := |a - b| ≤ 1e-8 + 1e-5 * |b|

noncomputable instance (a b : ℝ) : Decidable (npIsClose a b) :=
  inferInstanceAs (Decidable (_ ≤ _))

/-- np.allclose on 3-vectors: componentwise np.isclose. -/
def npAllClose (u v : Vec3) : Prop :=
  npIsClose u.x v.x ∧ npIsClose u.y v.y ∧ npIsClose u.z v.z

noncomputable instance (u v : Vec3) : Decidable (npAllClose u v) :=
  inferInstanceAs (Decidable (_ ∧ _ ∧ _))

/-- np.arctan2(y, x): the argument of the complex number x + i y. -/
noncomputable def atan2 (y x : ℝ) : ℝ := Complex.arg ⟨x, y⟩

/-- rotation_from_vectors from render.py.  The 4x4 matrix the source
returns is a pure rotation with zero translation; we embed its 3x3
rotation block.  Both inputs are divided by their norms; then
v = cross(u, w), c = dot(u, w), s = norm(v).  If s < 1e-8 the identity is
returned; note that exactly antiparallel inputs also land in this branch,
because their cross product is exactly zero.  Otherwise, if
np.isclose(c, -1), a 180 degree rotation about an axis orthogonal to
vec_from is returned (the canonical axis (1,0,0), replaced by (0,1,0)
when vec_from is np.allclose to it, crossed with vec_from and
normalized); otherwise the rotation of atan2(s, c) about v / s. -/
noncomputable def rotationFromVectors (vecFrom vecTo : Vec3) : Mat3 :=
  let u := vecFrom.normalize
  let w := vecTo.normalize
  let v := Vec3.cross u w
  let c := Vec3.dot u w
  let s := v.norm
  if s < 1e-8 then Mat3.id
  else if npIsClose c (-1) then
    let axis0 : Vec3 := if npAllClose u ⟨1, 0, 0⟩ then ⟨0, 1, 0⟩ else ⟨1, 0, 0⟩
    rotationMatrix Real.pi (Vec3.cross u axis0).normalize
  else
    rotationMatrix (atan2 s c) (Vec3.smul (1 / s) v)

/-- A 4x4 homogeneous pose matrix: rot holds rows 0..2 of columns 0..2,
trans holds column 3 of rows 0..2; the bottom row is 0 0 0 1. -/
structure Mat4 where
  rot : Mat3
  trans : Vec3

/-- look_at from render.py and render_improved.py: forward is the
normalized difference target - eye, right is the normalized cross of
forward and up, true_up their cross; the rows of the rotation block are
right, true_up and the negated forward, and the translation is eye. -/
noncomputable def lookAt (eye target up : Vec3) : Mat4 :=
  let forward := (Vec3.sub target eye).normalize
  let right := (Vec3.cross forward up).normalize
  let trueUp := Vec3.cross right forward
  { rot := ⟨right.x, right.y, right.z,
            trueUp.x, trueUp.y, trueUp.z,
            -forward.x, -forward.y, -forward.z⟩,
    trans := eye }

/-- Key algebraic fact: the Rodrigues matrix of a unit axis and a unit
(sine, cosine) pair is a proper rotation. -/
lemma rodrigues_isProper (d : Vec3) (s c : ℝ) (hd : d.normSq = 1)
    (hsc : s ^ 2 + c ^ 2 = 1) : (rodrigues d s c).IsProper := by
  obtain ⟨dx, dy, dz⟩ := d
  unfold Vec3.normSq at hd
  dsimp only at hd
  constructor
  · unfold rodrigues Mat3.transpose Mat3.mul Mat3.id
    dsimp only
    rw [Mat3.mk.injEq]
    refine ⟨?_, ?_, ?_, ?_, ?_, ?_, ?_, ?_, ?_⟩
    · linear_combination ((1 - c) ^ 2 * dx ^ 2 + s ^ 2) * hd + (1 - dx ^ 2) * hsc
    · linear_combination ((1 - c) ^ 2 * dx * dy) * hd + (-(dx * dy)) * hsc
    · linear_combination ((1 - c) ^ 2 * dx * dz) * hd + (-(dx * dz)) * hsc
    · linear_combination ((1 - c) ^ 2 * dx * dy) * hd + (-(dx * dy)) * hsc
    · linear_combination ((1 - c) ^ 2 * dy ^ 2 + s ^ 2) * hd + (1 - dy ^ 2) * hsc
    · linear_combination ((1 - c) ^ 2 * dy * dz) * hd + (-(dy * dz)) * hsc
    · linear_combination ((1 - c) ^ 2 * dx * dz) * hd + (-(dx * dz)) * hsc
    · linear_combination ((1 - c) ^ 2 * dy * dz) * hd + (-(dy * dz)) * hsc
    · linear_combination ((1 - c) ^ 2 * dz ^ 2 + s ^ 2) * hd + (1 - dz ^ 2) * hsc
  · unfold rodrigues Mat3.det
    dsimp only
    linear_combination
      (c * s ^ 2 + (1 - c) * c ^ 2 + (1 - c) * s ^ 2 * ((dx * dx + dy * dy + dz * dz) + 1)) * hd + hsc

lemma Mat3.transpose_mul_eq (A B : Mat3) :
    (A.mul B).transpose = B.transpose.mul A.transpose := by
  simp only [Mat3.mul, Mat3.transpose]
  ext <;> ring

lemma Mat3.mul_assoc3 (A B C : Mat3) : (A.mul B).mul C = A.mul (B.mul C) := by
  simp only [Mat3.mul]
  ext <;> ring

lemma Mat3.id_mul (A : Mat3) : Mat3.id.mul A = A := by
  simp only [Mat3.mul, Mat3.id]
  ext <;> ring

lemma Mat3.det_mul3 (A B : Mat3) : (A.mul B).det = A.det * B.det := by
  simp only [Mat3.mul, Mat3.det]
  ring

/-- Proper rotations are closed under matrix product: the combined
horizontal-then-vertical rotations of the strategic 12-view table stay
proper. -/
lemma Mat3.IsProper.mul {A B : Mat3} (hA : A.IsProper) (hB : B.IsProper) :
    (A.mul B).IsProper := by
  constructor
  · rw [Mat3.transpose_mul_eq, Mat3.mul_assoc3, ← Mat3.mul_assoc3 A.transpose,
      hA.1, Mat3.id_mul, hB.1]
  · rw [Mat3.det_mul3, hA.2, hB.2, one_mul]

lemma cos_atan2 {y x : ℝ} (h : x ^ 2 + y ^ 2 = 1) : Real.cos (atan2 y x) = x := by
  have habs : Complex.abs ⟨x, y⟩ = 1 := by
    rw [Complex.abs_apply, Complex.normSq_mk]
    rw [show x * x + y * y = 1 by nlinarith [h]]
    exact Real.sqrt_one
  have hz : (⟨x, y⟩ : ℂ) ≠ 0 := by
    intro h0
    rw [h0] at habs
    simp at habs
  unfold atan2
  rw [Complex.cos_arg hz, habs, div_one]

lemma sin_atan2 {y x : ℝ} (h : x ^ 2 + y ^ 2 = 1) : Real.sin (atan2 y x) = y := by
  have habs : Complex.abs ⟨x, y⟩ = 1 := by
    rw [Complex.abs_apply, Complex.normSq_mk]
    rw [show x * x + y * y = 1 by nlinarith [h]]
    exact Real.sqrt_one
  unfold atan2
  rw [Complex.sin_arg, habs, div_one]

/-- Any trimesh rotation_matrix about a nonzero axis is a proper rotation. -/
lemma rotationMatrix_isProper (angle : ℝ) {dir : Vec3} (h : dir ≠ Vec3.zero) :
    (rotationMatrix angle dir).IsProper :=
  rodrigues_isProper _ _ _ (normSq_normalize h) (Real.sin_sq_add_cos_sq angle)

lemma dot_self_eq_normSq (v : Vec3) : Vec3.dot v v = v.normSq := rfl

lemma dot_cross_left_self (u w : Vec3) : Vec3.dot (Vec3.cross u w) u = 0 := by
  unfold Vec3.dot Vec3.cross
  ring

lemma cross_smul_left (k : ℝ) (a b : Vec3) :
    Vec3.cross (Vec3.smul k a) b = Vec3.smul k (Vec3.cross a b) := by
  unfold Vec3.cross Vec3.smul
  ext <;> dsimp only <;> ring

lemma dot_smul_left (k : ℝ) (a b : Vec3) :
    Vec3.dot (Vec3.smul k a) b = k * Vec3.dot a b := by
  unfold Vec3.dot Vec3.smul
  ring

lemma cross_cross_self (u w : Vec3) :
    Vec3.cross (Vec3.cross u w) u =
      Vec3.sub (Vec3.smul (Vec3.dot u u) w) (Vec3.smul (Vec3.dot u w) u) := by
  unfold Vec3.cross Vec3.sub Vec3.smul Vec3.dot
  ext <;> dsimp only <;> ring

lemma normSq_smul (k : ℝ) (v : Vec3) :
    (Vec3.smul k v).normSq = k ^ 2 * v.normSq := by
  unfold Vec3.smul Vec3.normSq
  ring

/-- Lagrange identity for the cross product of 3-vectors. -/
lemma normSq_cross (u w : Vec3) :
    (Vec3.cross u w).normSq = u.normSq * w.normSq - Vec3.dot u w ^ 2 := by
  unfold Vec3.cross Vec3.normSq Vec3.dot
  ring

/-- The action of the Rodrigues matrix, written in vector form; a pure
polynomial identity in the components. -/
lemma rodrigues_apply (d u : Vec3) (s c : ℝ) :
    (rodrigues d s c).mulVec u =
      Vec3.add (Vec3.add (Vec3.smul c u) (Vec3.smul ((1 - c) * Vec3.dot d u) d))
        (Vec3.smul s (Vec3.cross d u)) := by
  unfold rodrigues Mat3.mulVec Vec3.add Vec3.smul Vec3.dot Vec3.cross
  ext <;> dsimp only <;> ring

/-- The Rodrigues matrix about the axis cross(u, w) / s, with cosine
dot(u, w), maps the unit vector u to w, for any nonzero s. -/
lemma rodrigues_maps (u w : Vec3) (s : ℝ) (hs : s ≠ 0) (hu : u.normSq = 1) :
    (rodrigues (Vec3.smul (1 / s) (Vec3.cross u w)) s (Vec3.dot u w)).mulVec u = w := by
  rw [rodrigues_apply, dot_smul_left, dot_cross_left_self, cross_smul_left, cross_cross_self,
    dot_self_eq_normSq, hu]
  unfold Vec3.add Vec3.smul Vec3.sub Vec3.cross Vec3.dot
  ext <;> dsimp only <;> field_simp

lemma rotationFromVectors_small_s (a b : Vec3)
    (hs : (Vec3.cross a.normalize b.normalize).norm < 1e-8) :
    rotationFromVectors a b = Mat3.id := by
  unfold rotationFromVectors
  dsimp only
  rw [if_pos hs]

lemma rotationFromVectors_generic_eq (a b : Vec3)
    (hs : ¬ (Vec3.cross a.normalize b.normalize).norm < 1e-8)
    (hc : ¬ npIsClose (Vec3.dot a.normalize b.normalize) (-1)) :
    rotationFromVectors a b =
      rotationMatrix
        (atan2 (Vec3.cross a.normalize b.normalize).norm
          (Vec3.dot a.normalize b.normalize))
        (Vec3.smul (1 / (Vec3.cross a.normalize b.normalize).norm)
          (Vec3.cross a.normalize b.normalize)) := by
  unfold rotationFromVectors
  dsimp only
  rw [if_neg hs, if_neg hc]

lemma rotationMatrix_atan2_maps (u w : Vec3) (hu : u.normSq = 1) (hw : w.normSq = 1)
    (hs : (Vec3.cross u w).norm ≠ 0) :
    (rotationMatrix (atan2 (Vec3.cross u w).norm (Vec3.dot u w))
      (Vec3.smul (1 / (Vec3.cross u w).norm) (Vec3.cross u w))).mulVec u = w := by
  have hssq : (Vec3.cross u w).norm ^ 2 = (Vec3.cross u w).normSq := by
    rw [sq]; exact norm_sq_eq_normSq _
  have hsc : Vec3.dot u w ^ 2 + (Vec3.cross u w).norm ^ 2 = 1 := by
    rw [hssq, normSq_cross, hu, hw]; ring
  unfold rotationMatrix
  have hnormd : (Vec3.smul (1 / (Vec3.cross u w).norm) (Vec3.cross u w)).normSq = 1 := by
    rw [normSq_smul, ← hssq]
    field_simp
  rw [normalize_of_normSq_one hnormd, sin_atan2 hsc, cos_atan2 hsc]
  exact rodrigues_maps u w _ hs hu

/-- In the generic branch (cross-product norm at least 1e-8, dot product
not np.isclose to -1), rotation_from_vectors maps the normalized source
vector exactly onto the normalized target vector. -/
lemma rotationFromVectors_maps (a b : Vec3) (ha : a ≠ Vec3.zero) (hb : b ≠ Vec3.zero)
    (hs : ¬ (Vec3.cross a.normalize b.normalize).norm < 1e-8)
    (hc : ¬ npIsClose (Vec3.dot a.normalize b.normalize) (-1)) :
    (rotationFromVectors a b).mulVec a.normalize = b.normalize := by
  rw [rotationFromVectors_generic_eq a b hs hc]
  refine rotationMatrix_atan2_maps _ _ (normSq_normalize ha) (normSq_normalize hb) ?_
  intro h0
  rw [h0] at hs
  exact hs (by norm_num)

/-- The corner list from render.py used in cube-corner mode (n = 8). -/
def cubeCorners : List Vec3 :=
  [⟨-1, -1, -1⟩, ⟨-1, -1, 1⟩, ⟨-1, 1, -1⟩, ⟨-1, 1, 1⟩,
   ⟨1, -1, -1⟩, ⟨1, -1, 1⟩, ⟨1, 1, -1⟩, ⟨1, 1, 1⟩]

/-- The fixed camera-forward axis: the camera looks along negative Z. -/
def targetDir : Vec3 := ⟨0, 0, -1⟩

/-- The rotation table of cube-corner mode: for each corner direction, the
rotation that maps it onto the camera-forward axis (0, 0, -1), in the
order of the corner list. -/
noncomputable def cubeCornerRots : List Mat3 :=
  cubeCorners.map (fun cornerDir => rotationFromVectors cornerDir targetDir)

/-- A ViewSpec of render_improved.py: a rotation and a label. -/
structure ViewSpec where
  rotation : Mat3
  label : String

/-- The 6 corner/edge (horizontal angle, vertical angle, label) triples of
get_12_strategic_views. -/
noncomputable def cornerAngles : List (ℝ × ℝ × String) :=
  [(Real.pi / 4, Real.pi / 6, "Front-Top-Right"),
   (3 * Real.pi / 4, Real.pi / 6, "Back-Top-Right"),
   (5 * Real.pi / 4, Real.pi / 6, "Back-Top-Left"),
   (7 * Real.pi / 4, Real.pi / 6, "Front-Top-Left"),
   (Real.pi / 4, -(Real.pi / 6), "Front-Bottom-Right"),
   (5 * Real.pi / 4, -(Real.pi / 6), "Back-Bottom-Left")]

/-- get_12_strategic_views from render_improved.py: 4 cardinal rotations
about the Y axis labeled Front/Right/Back/Left, the Top and Bottom
rotations about the X axis, and 6 combined horizontal-then-vertical
corner views (np.dot(rot_h, rot_v)).  The source reads the label table by
index i which is always below 4; getD with a default keeps the embedding
total. -/
noncomputable def get12StrategicViews : List ViewSpec :=
  ((List.range 4).map (fun i =>
    { rotation := rotationMatrix (Real.pi / 2 * (i : ℝ)) ⟨0, 1, 0⟩,
      label := ["Front", "Right", "Back", "Left"].getD i "" }))
  ++ [{ rotation := rotationMatrix (-(Real.pi / 2)) ⟨1, 0, 0⟩, label := "Top" },
      { rotation := rotationMatrix (Real.pi / 2) ⟨1, 0, 0⟩, label := "Bottom" }]
  ++ cornerAngles.map (fun hvl =>
      { rotation := Mat3.mul (rotationMatrix hvl.1 ⟨0, 1, 0⟩)
          (rotationMatrix hvl.2.1 ⟨1, 0, 0⟩),
        label := hvl.2.2 })

/-- Fallback uniform mode: n equally spaced rotations about the vertical
axis, theta_i = 2 pi i / n (render.py when n is not 8,
render_improved.py when n is not 12). -/
noncomputable def uniformRots (n : ℕ) : List Mat3 :=
  (List.range n).map (fun i =>
    rotationMatrix (2 * Real.pi * ((i : ℝ) / (n : ℝ))) ⟨0, 1, 0⟩)

/-- The vertex soup of a merged trimesh.Trimesh.  The claims only need
the vertices: the centroid is modelled as the mean vertex position (the
spec's description of it; trimesh weights triangle centroids by area, and
both notions are equivariant under the translation and the uniform
scaling that normalization applies, which is all the claims use), and the
extents are the componentwise bounding-box widths of the vertices. -/
def meshSum (m : List Vec3) : Vec3 := m.foldr Vec3.add Vec3.zero

/-- mesh.centroid, modelled as the mean vertex position. -/
noncomputable def centroid (m : List Vec3) : Vec3 :=
  Vec3.smul (1 / (m.length : ℝ)) (meshSum m)

/-- Maximum of a list of reals, as Python max over a nonempty iterable;
returns 0 on the empty list (trimesh has no bounds for an empty mesh). -/
noncomputable def listMax : List ℝ → ℝ
  | [] => 0
  | a :: t => t.foldl max a

/-- Minimum of a list of reals; 0 on the empty list. -/
noncomputable def listMin : List ℝ → ℝ
  | [] => 0
  | a :: t => t.foldl min a

/-- One component of mesh.extents: the bounding-box width along an axis. -/
noncomputable def axisExtent (f : Vec3 → ℝ) (m : List Vec3) : ℝ :=
  listMax (m.map f) - listMin (m.map f)

/-- max(mesh.extents): the largest bounding-box width of the three axes. -/
noncomputable def maxExtent (m : List Vec3) : ℝ :=
  max (max (axisExtent Vec3.x m) (axisExtent Vec3.y m)) (axisExtent Vec3.z m)

/-- mesh.apply_translation(t): add t to every vertex. -/
def translateMesh (t : Vec3) (m : List Vec3) : List Vec3 :=
  m.map (fun v => Vec3.add v t)

/-- mesh.apply_scale(k): multiply every vertex by the uniform factor k. -/
def scaleMeshBy (k : ℝ) (m : List Vec3) : List Vec3 :=
  m.map (fun v => Vec3.smul k v)

/-- The centering and rescaling steps of load_mesh: translate by the
negated centroid, then scale by 1 / max(extents) (the extents are read
after the translation, exactly as in the source).  The source has no
degenerate-mesh check: when the max extent is zero, Python evaluates
1.0 / 0.0 on a numpy float, which yields inf with a RuntimeWarning and
raises nothing; this real-number embedding uses the convention 1 / 0 = 0
instead, and the control flow (no exception on this path) is the same. -/
noncomputable def normalizeMesh (m : List Vec3) : List Vec3 :=
  let centered := translateMesh (Vec3.neg (centroid m)) m
  let scale := 1 / maxExtent centered
  scaleMeshBy scale centered

/-- The structural shape of the container returned by trimesh.load: a
scene with named sub-geometries, a single mesh, a list or tuple of
meshes, or any other loader result (which load_mesh rejects). -/
inductive Asset where
  | scene (geoms : List (List Vec3))
  | single (m : List Vec3)
  | collection (ms : List (List Vec3))
  | unsupported (tag : String)

/-- The error taxonomy of the spec for mesh loading.  The source raises a
TypeError for an unsupported container, which the spec names
UnsupportedAssetError; the spec also names a DegenerateMeshError for
zero-extent meshes, but no code path of load_mesh raises it. -/
inductive MeshError where
  | unsupportedType
  | degenerateMesh
deriving DecidableEq

/-- load_mesh: branch on the structural type of the loaded container,
raise for an unsupported one, merge the sub-meshes into a single vertex
soup (trimesh re-bases face indices while concatenating; the vertex-level
model keeps only the vertices), then center and rescale. -/
noncomputable def loadMesh (a : Asset) : Except MeshError (List Vec3) :=
  match a with
  | .scene geoms => .ok (normalizeMesh geoms.flatten)
  | .single m => .ok (normalizeMesh m)
  | .collection ms => .ok (normalizeMesh ms.flatten)
  | .unsupported _ => .error .unsupportedType

inductive RenderError where
  | load (e : MeshError)
  | raster (viewIndex : ℕ)
deriving DecidableEq

/-- What one render invocation did: how many times it called load_mesh,
how many view files it wrote, how many offscreen renderer contexts it
acquired and released, and its outcome. -/
structure RenderTrace where
  loadCalls : ℕ
  filesWritten : ℕ
  rendererAcquired : ℕ
  rendererReleased : ℕ
  result : Except RenderError Unit

/-- The per-view loop of render_views: view i writes its file unless the
rasterization call at index failAt raises first (the render call precedes
the image save, so the failing view writes no file).  Returns the number
of files written and the outcome. -/
def renderLoop (n : ℕ) (failAt : Option ℕ) : ℕ × Except RenderError Unit :=
  match failAt with
  | some i => if i < n then (i, .error (.raster i)) else (n, .ok ())
  | none => (n, .ok ())

/-- The resource skeleton of render_views from render.py
(render_views_improved has the same structure): call load_mesh once,
propagating its error before any renderer exists; acquire the offscreen
renderer; run the per-view loop; call renderer.delete() after the loop.
There is no try/finally around the loop: when a rasterization call raises
mid-loop the exception propagates and the delete call is never reached.
failAt is an oracle marking which rasterization call, if any, raises. -/
noncomputable def renderViews (a : Asset) (n : ℕ) (failAt : Option ℕ) : RenderTrace :=
  match loadMesh a with
  | .error e =>
    { loadCalls := 1, filesWritten := 0, rendererAcquired := 0,
      rendererReleased := 0, result := .error (.load e) }
  | .ok _ =>
    match renderLoop n failAt with
    | (files, .error e) =>
      { loadCalls := 1, filesWritten := files, rendererAcquired := 1,
        rendererReleased := 0, result := .error e }
    | (_, .ok _) =>
      { loadCalls := 1, filesWritten := n, rendererAcquired := 1,
        rendererReleased := 1, result := .ok () }

/-- The five (eye, target, up) triples create_enhanced_lighting passes to
look_at: key, fill, back and two side lights, all aimed at the origin
with up (0, 1, 0). -/
def lightingConfigs : List (Vec3 × Vec3 × Vec3) :=
  [(⟨2, 3, 2⟩, ⟨0, 0, 0⟩, ⟨0, 1, 0⟩),
   (⟨-2, 2, -1⟩, ⟨0, 0, 0⟩, ⟨0, 1, 0⟩),
   (⟨0, 1, -3⟩, ⟨0, 0, 0⟩, ⟨0, 1, 0⟩),
   (⟨3, 0, 0⟩, ⟨0, 0, 0⟩, ⟨0, 1, 0⟩),
   (⟨-3, 0, 0⟩, ⟨0, 0, 0⟩, ⟨0, 1, 0⟩)]

lemma targetDir_normalize : targetDir.normalize = targetDir :=
  normalize_of_normSq_one (by norm_num [Vec3.normSq, targetDir])

lemma sqrt3_sq : Real.sqrt 3 * Real.sqrt 3 = 3 := Real.mul_self_sqrt (by norm_num)

lemma sqrt3_pos : (0 : ℝ) < Real.sqrt 3 := Real.sqrt_pos.mpr (by norm_num)

lemma sqrt23_sq : Real.sqrt (2 / 3) * Real.sqrt (2 / 3) = 2 / 3 :=
  Real.mul_self_sqrt (by norm_num)

lemma sqrt23_pos : (0 : ℝ) < Real.sqrt (2 / 3) := Real.sqrt_pos.mpr (by norm_num)

lemma corner_normalize (x y z : ℝ) (hx : x ^ 2 = 1) (hy : y ^ 2 = 1) (hz : z ^ 2 = 1) :
    (⟨x, y, z⟩ : Vec3).normalize = Vec3.smul (1 / Real.sqrt 3) ⟨x, y, z⟩ := by
  unfold Vec3.normalize Vec3.norm
  have h3 : (⟨x, y, z⟩ : Vec3).normSq = 3 := by
    unfold Vec3.normSq
    dsimp only
    nlinarith [hx, hy, hz]
  rw [h3]

lemma corner_cross (x y z : ℝ) :
    Vec3.cross (Vec3.smul (1 / Real.sqrt 3) ⟨x, y, z⟩) targetDir =
      Vec3.smul (1 / Real.sqrt 3) ⟨-y, x, 0⟩ := by
  unfold Vec3.cross Vec3.smul targetDir
  ext <;> dsimp only <;> ring

lemma corner_cross_norm (x y : ℝ) (hx : x ^ 2 = 1) (hy : y ^ 2 = 1) :
    (Vec3.smul (1 / Real.sqrt 3) (⟨-y, x, 0⟩ : Vec3)).norm = Real.sqrt (2 / 3) := by
  unfold Vec3.norm
  congr 1
  rw [normSq_smul]
  have h1 : (⟨-y, x, 0⟩ : Vec3).normSq = 2 := by
    unfold Vec3.normSq
    dsimp only
    nlinarith [hx, hy]
  rw [h1]
  have h2 : (1 / Real.sqrt 3) ^ 2 = 1 / 3 := by
    rw [div_pow, one_pow, sq, sqrt3_sq]
  rw [h2]
  norm_num

lemma corner_dot (x y z : ℝ) :
    Vec3.dot (Vec3.smul (1 / Real.sqrt 3) ⟨x, y, z⟩) targetDir = -z / Real.sqrt 3 := by
  unfold Vec3.dot Vec3.smul targetDir
  dsimp only
  ring

lemma corner_s_not_small : ¬ Real.sqrt (2 / 3) < 1e-8 := by
  intro h
  nlinarith [sqrt23_sq, sqrt23_pos]

lemma corner_c_not_close (z : ℝ) (hz : z ^ 2 = 1) :
    ¬ npIsClose (-z / Real.sqrt 3) (-1) := by
  unfold npIsClose
  intro h
  have hzb : -1 ≤ z ∧ z ≤ 1 := by constructor <;> nlinarith [hz]
  have hbound : z / Real.sqrt 3 ≤ 3 / 5 := by
    rw [div_le_iff₀ sqrt3_pos]
    nlinarith [sqrt3_sq, sqrt3_pos, hzb.2]
  have hpos : (2 : ℝ) / 5 ≤ -z / Real.sqrt 3 - (-1) := by
    have : -z / Real.sqrt 3 = -(z / Real.sqrt 3) := by ring
    rw [this]
    linarith [hbound]
  have habs : (2 : ℝ) / 5 ≤ |(-z / Real.sqrt 3) - (-1)| := le_trans hpos (le_abs_self _)
  rw [show |(-1 : ℝ)| = 1 by norm_num] at h
  norm_num at h habs
  linarith

/-- On a cube corner (components of square 1), rotation_from_vectors to
the camera-forward axis takes the generic Rodrigues branch, with axis
(-y, x, 0) / sqrt 3 renormalized, sine sqrt(2/3) and cosine -z / sqrt 3. -/
lemma corner_rot_form (x y z : ℝ) (hx : x ^ 2 = 1) (hy : y ^ 2 = 1) (hz : z ^ 2 = 1) :
    rotationFromVectors ⟨x, y, z⟩ targetDir =
      rodrigues
        (Vec3.smul (1 / Real.sqrt (2 / 3)) (Vec3.smul (1 / Real.sqrt 3) ⟨-y, x, 0⟩))
        (Real.sqrt (2 / 3)) (-z / Real.sqrt 3) := by
  have e1 := corner_normalize x y z hx hy hz
  have e3 := corner_cross x y z
  have e4 := corner_cross_norm x y hx hy
  have e5 := corner_dot x y z
  have hs : ¬ (Vec3.cross (⟨x, y, z⟩ : Vec3).normalize targetDir.normalize).norm < 1e-8 := by
    rw [e1, targetDir_normalize, e3, e4]
    exact corner_s_not_small
  have hc : ¬ npIsClose (Vec3.dot (⟨x, y, z⟩ : Vec3).normalize targetDir.normalize) (-1) := by
    rw [e1, targetDir_normalize, e5]
    exact corner_c_not_close z hz
  rw [rotationFromVectors_generic_eq _ _ hs hc]
  rw [e1, targetDir_normalize, e3, e4, e5]
  unfold rotationMatrix
  have hd1 : (Vec3.smul (1 / Real.sqrt (2 / 3))
      (Vec3.smul (1 / Real.sqrt 3) (⟨-y, x, 0⟩ : Vec3))).normSq = 1 := by
    rw [normSq_smul, normSq_smul]
    have h1 : (⟨-y, x, 0⟩ : Vec3).normSq = 2 := by
      unfold Vec3.normSq
      dsimp only
      nlinarith [hx, hy]
    rw [h1]
    have h2 : (1 / Real.sqrt 3) ^ 2 = 1 / 3 := by
      rw [div_pow, one_pow, sq, sqrt3_sq]
    have h3 : (1 / Real.sqrt (2 / 3)) ^ 2 = 3 / 2 := by
      rw [div_pow, one_pow, sq, sqrt23_sq]
      norm_num
    rw [h2, h3]
    norm_num
  have hsc1 : (-z / Real.sqrt 3) ^ 2 + Real.sqrt (2 / 3) ^ 2 = 1 := by
    have h1 : Real.sqrt 3 ^ 2 = 3 := by rw [sq, sqrt3_sq]
    have h2 : Real.sqrt (2 / 3) ^ 2 = 2 / 3 := by rw [sq, sqrt23_sq]
    rw [div_pow, h1, h2]
    linear_combination hz / 3
  rw [normalize_of_normSq_one hd1, sin_atan2 hsc1, cos_atan2 hsc1]

lemma corner_rot_proper (x y z : ℝ) (hx : x ^ 2 = 1) (hy : y ^ 2 = 1) (hz : z ^ 2 = 1) :
    (rotationFromVectors ⟨x, y, z⟩ targetDir).IsProper := by
  rw [corner_rot_form x y z hx hy hz]
  apply rodrigues_isProper
  · rw [normSq_smul, normSq_smul]
    have h1 : (⟨-y, x, 0⟩ : Vec3).normSq = 2 := by
      unfold Vec3.normSq
      dsimp only
      nlinarith [hx, hy]
    have h2 : (1 / Real.sqrt 3) ^ 2 = 1 / 3 := by
      rw [div_pow, one_pow, sq, sqrt3_sq]
    have h3 : (1 / Real.sqrt (2 / 3)) ^ 2 = 3 / 2 := by
      rw [div_pow, one_pow, sq, sqrt23_sq]
      norm_num
    rw [h1, h2, h3]
    norm_num
  · have h1 : Real.sqrt 3 ^ 2 = 3 := by rw [sq, sqrt3_sq]
    have h2 : Real.sqrt (2 / 3) ^ 2 = 2 / 3 := by rw [sq, sqrt23_sq]
    rw [div_pow, h1, h2]
    linear_combination hz / 3

lemma corner_rot_col2 (x y z : ℝ) (hx : x ^ 2 = 1) (hy : y ^ 2 = 1) (hz : z ^ 2 = 1) :
    (rotationFromVectors ⟨x, y, z⟩ targetDir).m02 = x / Real.sqrt 3 ∧
    (rotationFromVectors ⟨x, y, z⟩ targetDir).m12 = y / Real.sqrt 3 ∧
    (rotationFromVectors ⟨x, y, z⟩ targetDir).m22 = -z / Real.sqrt 3 := by
  rw [corner_rot_form x y z hx hy hz]
  unfold rodrigues Vec3.smul
  dsimp only
  have h23 : Real.sqrt (2 / 3) ≠ 0 := ne_of_gt sqrt23_pos
  have h3 : Real.sqrt 3 ≠ 0 := ne_of_gt sqrt3_pos
  refine ⟨?_, ?_, ?_⟩
  · field_simp
    ring
  · field_simp
    ring
  · field_simp

lemma corner_rot_ne_of_x (x y z x2 y2 z2 : ℝ)
    (hx : x ^ 2 = 1) (hy : y ^ 2 = 1) (hz : z ^ 2 = 1)
    (hx2 : x2 ^ 2 = 1) (hy2 : y2 ^ 2 = 1) (hz2 : z2 ^ 2 = 1)
    (hne : x ≠ x2) :
    rotationFromVectors ⟨x, y, z⟩ targetDir ≠ rotationFromVectors ⟨x2, y2, z2⟩ targetDir := by
  intro h
  have h1 := (corner_rot_col2 x y z hx hy hz).1
  have h2 := (corner_rot_col2 x2 y2 z2 hx2 hy2 hz2).1
  rw [h, h2] at h1
  have h3 : Real.sqrt 3 ≠ 0 := ne_of_gt sqrt3_pos
  field_simp at h1
  exact hne h1.symm

lemma corner_rot_ne_of_y (x y z x2 y2 z2 : ℝ)
    (hx : x ^ 2 = 1) (hy : y ^ 2 = 1) (hz : z ^ 2 = 1)
    (hx2 : x2 ^ 2 = 1) (hy2 : y2 ^ 2 = 1) (hz2 : z2 ^ 2 = 1)
    (hne : y ≠ y2) :
    rotationFromVectors ⟨x, y, z⟩ targetDir ≠ rotationFromVectors ⟨x2, y2, z2⟩ targetDir := by
  intro h
  have h1 := (corner_rot_col2 x y z hx hy hz).2.1
  have h2 := (corner_rot_col2 x2 y2 z2 hx2 hy2 hz2).2.1
  rw [h, h2] at h1
  have h3 : Real.sqrt 3 ≠ 0 := ne_of_gt sqrt3_pos
  field_simp at h1
  exact hne h1.symm

lemma corner_rot_ne_of_z (x y z x2 y2 z2 : ℝ)
    (hx : x ^ 2 = 1) (hy : y ^ 2 = 1) (hz : z ^ 2 = 1)
    (hx2 : x2 ^ 2 = 1) (hy2 : y2 ^ 2 = 1) (hz2 : z2 ^ 2 = 1)
    (hne : z ≠ z2) :
    rotationFromVectors ⟨x, y, z⟩ targetDir ≠ rotationFromVectors ⟨x2, y2, z2⟩ targetDir := by
  intro h
  have h1 := (corner_rot_col2 x y z hx hy hz).2.2
  have h2 := (corner_rot_col2 x2 y2 z2 hx2 hy2 hz2).2.2
  rw [h, h2] at h1
  have h3 : Real.sqrt 3 ≠ 0 := ne_of_gt sqrt3_pos
  field_simp at h1
  exact hne h1.symm

lemma ex_ne_zero : (⟨1, 0, 0⟩ : Vec3) ≠ Vec3.zero := by
  intro h
  have h1 := congrArg Vec3.x h
  simp [Vec3.zero] at h1

lemma ey_ne_zero : (⟨0, 1, 0⟩ : Vec3) ≠ Vec3.zero := by
  intro h
  have h1 := congrArg Vec3.y h
  simp [Vec3.zero] at h1

/-- C8: in cube-corner mode (requested view count 8), the 8 rotations
obtained by mapping the 8 sign combinations of (1, 1, 1) onto the
camera-forward axis (0, 0, -1) are pairwise distinct.  The spec asks that
no two be within epsilon of each other; in this exact real-number
embedding the matrices are pairwise unequal, with third columns
(x, y, -z) / sqrt 3 ranging over all 8 sign patterns. -/
theorem spec_C8_cube_corner_rotations_distinct :
    List.Pairwise (fun A B => A ≠ B) cubeCornerRots := by
  unfold cubeCornerRots
  rw [List.pairwise_map]
  simp only [cubeCorners]
  refine List.Pairwise.cons ?_ (List.Pairwise.cons ?_ (List.Pairwise.cons ?_
    (List.Pairwise.cons ?_ (List.Pairwise.cons ?_ (List.Pairwise.cons ?_
    (List.Pairwise.cons ?_ (List.Pairwise.cons ?_ List.Pairwise.nil))))))) <;>
    (intro b hb; fin_cases hb) <;>
    first
    | (apply corner_rot_ne_of_x <;> (norm_num; done))
    | (apply corner_rot_ne_of_y <;> (norm_num; done))
    | (apply corner_rot_ne_of_z <;> (norm_num; done))

/-- C5: every rotation of every generated view table is a proper rigid
rotation, with orthonormal columns and determinant +1: the 8 cube-corner
rotations, the 12 strategic view rotations (including the composed
corner views), and the uniform fallback rotations for every view count n. -/
theorem spec_C5_all_view_rotations_proper :
    (∀ R ∈ cubeCornerRots, R.IsProper) ∧
    (∀ v ∈ get12StrategicViews, v.rotation.IsProper) ∧
    (∀ n : ℕ, ∀ R ∈ uniformRots n, R.IsProper) := by
  refine ⟨?_, ?_, ?_⟩
  · intro R hR
    unfold cubeCornerRots at hR
    rw [List.mem_map] at hR
    obtain ⟨d, hd, rfl⟩ := hR
    simp only [cubeCorners, List.mem_cons, List.not_mem_nil, or_false] at hd
    rcases hd with rfl | rfl | rfl | rfl | rfl | rfl | rfl | rfl <;>
      exact corner_rot_proper _ _ _ (by norm_num) (by norm_num) (by norm_num)
  · intro v hv
    unfold get12StrategicViews at hv
    rw [List.mem_append] at hv
    rcases hv with hv | hv
    · rw [List.mem_append] at hv
      rcases hv with hv | hv
      · rw [List.mem_map] at hv
        obtain ⟨i, _, rfl⟩ := hv
        exact rotationMatrix_isProper _ ey_ne_zero
      · simp only [List.mem_cons, List.not_mem_nil, or_false] at hv
        rcases hv with rfl | rfl
        · exact rotationMatrix_isProper _ ex_ne_zero
        · exact rotationMatrix_isProper _ ex_ne_zero
    · rw [List.mem_map] at hv
      obtain ⟨hvl, _, rfl⟩ := hv
      exact (rotationMatrix_isProper _ ey_ne_zero).mul (rotationMatrix_isProper _ ex_ne_zero)
  · intro n R hR
    unfold uniformRots at hR
    rw [List.mem_map] at hR
    obtain ⟨i, _, rfl⟩ := hR
    exact rotationMatrix_isProper _ ey_ne_zero

/-- Witness for C5: the first strategic view's rotation (the cardinal
Front rotation, angle pi/2 * 0 about the Y axis) is proper. -/
theorem spec_C5_witness :
    Mat3.IsProper (rotationMatrix (Real.pi / 2 * ((0 : ℕ) : ℝ)) ⟨0, 1, 0⟩) := by
  have hmem : (⟨rotationMatrix (Real.pi / 2 * ((0 : ℕ) : ℝ)) ⟨0, 1, 0⟩,
      ["Front", "Right", "Back", "Left"].getD 0 ""⟩ : ViewSpec) ∈ get12StrategicViews := by
    unfold get12StrategicViews
    apply List.mem_append_left
    apply List.mem_append_left
    exact List.mem_map.mpr ⟨0, List.mem_range.mpr (by norm_num), rfl⟩
  exact spec_C5_all_view_rotations_proper.2.1 _ hmem

/-- The analytic rotation matrix about the vertical (Y) axis, written
from the spec's words: the expected matrix against which scenario B
checks the generated rotations. -/
noncomputable def analyticYRotation (theta : ℝ) : Mat3 :=
  ⟨Real.cos theta, 0, Real.sin theta,
   0, 1, 0,
   -Real.sin theta, 0, Real.cos theta⟩

lemma rotationMatrix_y_eq (theta : ℝ) :
    rotationMatrix theta ⟨0, 1, 0⟩ = analyticYRotation theta := by
  unfold rotationMatrix analyticYRotation
  rw [normalize_of_normSq_one (by norm_num [Vec3.normSq])]
  unfold rodrigues
  ext <;> dsimp only <;> ring

lemma cos_three_half_pi : Real.cos (3 * Real.pi / 2) = 0 := by
  rw [show (3 * Real.pi / 2 : ℝ) = Real.pi + Real.pi / 2 by ring, Real.cos_add]
  simp

lemma sin_three_half_pi : Real.sin (3 * Real.pi / 2) = -1 := by
  rw [show (3 * Real.pi / 2 : ℝ) = Real.pi + Real.pi / 2 by ring, Real.sin_add]
  simp

/-- C7: when the requested view count is 12, the first 4 generated view
rotations are the analytic rotations by 0, 90, 180 and 270 degrees about
the vertical axis, in that order, with the explicit matrix values spelled
out, and their labels are Front, Right, Back, Left. -/
theorem spec_C7_first_four_cardinal :
    (get12StrategicViews.take 4).map ViewSpec.rotation =
      [analyticYRotation 0, analyticYRotation (Real.pi / 2),
       analyticYRotation Real.pi, analyticYRotation (3 * Real.pi / 2)] ∧
    [analyticYRotation 0, analyticYRotation (Real.pi / 2),
     analyticYRotation Real.pi, analyticYRotation (3 * Real.pi / 2)] =
      [Mat3.id,
       ⟨0, 0, 1, 0, 1, 0, -1, 0, 0⟩,
       ⟨-1, 0, 0, 0, 1, 0, 0, 0, -1⟩,
       ⟨0, 0, -1, 0, 1, 0, 1, 0, 0⟩] ∧
    (get12StrategicViews.take 4).map ViewSpec.label =
      ["Front", "Right", "Back", "Left"] := by
  have hr : List.range 4 = [0, 1, 2, 3] := rfl
  have htake : get12StrategicViews.take 4 =
      [⟨rotationMatrix (Real.pi / 2 * ((0 : ℕ) : ℝ)) ⟨0, 1, 0⟩, "Front"⟩,
       ⟨rotationMatrix (Real.pi / 2 * ((1 : ℕ) : ℝ)) ⟨0, 1, 0⟩, "Right"⟩,
       ⟨rotationMatrix (Real.pi / 2 * ((2 : ℕ) : ℝ)) ⟨0, 1, 0⟩, "Back"⟩,
       ⟨rotationMatrix (Real.pi / 2 * ((3 : ℕ) : ℝ)) ⟨0, 1, 0⟩, "Left"⟩] := by
    unfold get12StrategicViews
    rw [hr]
    rfl
  refine ⟨?_, ?_, ?_⟩
  · rw [htake]
    simp only [List.map_cons, List.map_nil]
    rw [rotationMatrix_y_eq, rotationMatrix_y_eq, rotationMatrix_y_eq, rotationMatrix_y_eq]
    rw [show (Real.pi / 2 * ((0 : ℕ) : ℝ)) = 0 by push_cast; ring,
      show (Real.pi / 2 * ((1 : ℕ) : ℝ)) = Real.pi / 2 by push_cast; ring,
      show (Real.pi / 2 * ((2 : ℕ) : ℝ)) = Real.pi by push_cast; ring,
      show (Real.pi / 2 * ((3 : ℕ) : ℝ)) = 3 * Real.pi / 2 by push_cast; ring]
  · unfold analyticYRotation
    rw [Real.cos_zero, Real.sin_zero, Real.cos_pi_div_two, Real.sin_pi_div_two,
      Real.cos_pi, Real.sin_pi, cos_three_half_pi, sin_three_half_pi]
    norm_num [Mat3.id]
  · rw [htake]
    rfl

lemma ex_normalize : (⟨1, 0, 0⟩ : Vec3).normalize = ⟨1, 0, 0⟩ :=
  normalize_of_normSq_one (by norm_num [Vec3.normSq])

lemma ey_normalize : (⟨0, 1, 0⟩ : Vec3).normalize = ⟨0, 1, 0⟩ :=
  normalize_of_normSq_one (by norm_num [Vec3.normSq])

lemma neg_ex_normalize : (⟨-1, 0, 0⟩ : Vec3).normalize = ⟨-1, 0, 0⟩ :=
  normalize_of_normSq_one (by norm_num [Vec3.normSq])

lemma zero_norm : Vec3.zero.norm = 0 := by
  unfold Vec3.norm
  rw [show Vec3.zero.normSq = 0 by norm_num [Vec3.normSq, Vec3.zero]]
  exact Real.sqrt_zero

/-- C2 (evaluating the code at the failing input): for the exactly
antiparallel pair a = (1,0,0), b = (-1,0,0) the cross product is exactly
zero, so the s < 1e-8 branch fires first and rotation_from_vectors
returns the identity; applying the result to a yields a itself, which is
not -a.  The dedicated antiparallel 180-degree branch of the source is
unreachable for exactly opposite inputs. -/
theorem spec_C2_antiparallel_returns_identity :
    rotationFromVectors ⟨1, 0, 0⟩ ⟨-1, 0, 0⟩ = Mat3.id ∧
    (rotationFromVectors ⟨1, 0, 0⟩ ⟨-1, 0, 0⟩).mulVec ⟨1, 0, 0⟩ = ⟨1, 0, 0⟩ ∧
    (⟨1, 0, 0⟩ : Vec3) ≠ ⟨-1, 0, 0⟩ := by
  have hcross :
      Vec3.cross (⟨1, 0, 0⟩ : Vec3).normalize (⟨-1, 0, 0⟩ : Vec3).normalize = Vec3.zero := by
    rw [ex_normalize, neg_ex_normalize]
    unfold Vec3.cross Vec3.zero
    ext <;> norm_num
  have hid : rotationFromVectors ⟨1, 0, 0⟩ ⟨-1, 0, 0⟩ = Mat3.id := by
    apply rotationFromVectors_small_s
    rw [hcross, zero_norm]
    norm_num
  refine ⟨hid, ?_, ?_⟩
  · rw [hid]
    unfold Mat3.mulVec Mat3.id
    ext <;> norm_num
  · intro h
    have h1 := congrArg Vec3.x h
    norm_num at h1

lemma cross_smul_right (k : ℝ) (a b : Vec3) :
    Vec3.cross a (Vec3.smul k b) = Vec3.smul k (Vec3.cross a b) := by
  unfold Vec3.cross Vec3.smul
  ext <;> dsimp only <;> ring

lemma norm_smul_nonneg {k : ℝ} (hk : 0 ≤ k) (v : Vec3) :
    (Vec3.smul k v).norm = k * v.norm := by
  unfold Vec3.norm
  rw [normSq_smul, Real.sqrt_mul (sq_nonneg k), Real.sqrt_sq hk]

/-- C6 counterexample: a = (1,0,0) and b = (-1, 1e-9, 0) are non-parallel
(their cross product is nonzero), yet the cross product of the normalized
pair has norm below 1e-8, so rotation_from_vectors returns the identity,
which maps normalize(a) = (1,0,0) to itself -- at distance about 2 from
normalize(b), far outside any floating tolerance. -/
theorem spec_C6_counterexample :
    Vec3.cross ⟨1, 0, 0⟩ ⟨-1, 1e-9, 0⟩ ≠ Vec3.zero ∧
    rotationFromVectors ⟨1, 0, 0⟩ ⟨-1, 1e-9, 0⟩ = Mat3.id ∧
    (rotationFromVectors ⟨1, 0, 0⟩ ⟨-1, 1e-9, 0⟩).mulVec (⟨1, 0, 0⟩ : Vec3).normalize ≠
      (⟨-1, 1e-9, 0⟩ : Vec3).normalize := by
  have hb_norm_pos : (0 : ℝ) < (⟨-1, 1e-9, 0⟩ : Vec3).norm := by
    apply norm_pos_of_ne_zero
    intro h
    have h1 := congrArg Vec3.x h
    norm_num [Vec3.zero] at h1
  have hbn : (⟨-1, 1e-9, 0⟩ : Vec3).normalize =
      Vec3.smul (1 / (⟨-1, 1e-9, 0⟩ : Vec3).norm) ⟨-1, 1e-9, 0⟩ := rfl
  have hnorm_ge : (1 : ℝ) ≤ (⟨-1, 1e-9, 0⟩ : Vec3).norm := by
    unfold Vec3.norm
    rw [show ((⟨-1, 1e-9, 0⟩ : Vec3).normSq) = 1 + 1e-18 by norm_num [Vec3.normSq]]
    nlinarith [Real.sq_sqrt (show (0:ℝ) ≤ 1 + 1e-18 by norm_num),
      Real.sqrt_nonneg (1 + 1e-18 : ℝ)]
  have hsmall :
      (Vec3.cross (⟨1, 0, 0⟩ : Vec3).normalize (⟨-1, 1e-9, 0⟩ : Vec3).normalize).norm
        < 1e-8 := by
    rw [ex_normalize, hbn, cross_smul_right]
    rw [show Vec3.cross (⟨1, 0, 0⟩ : Vec3) ⟨-1, 1e-9, 0⟩ = ⟨0, 0, 1e-9⟩ by
      unfold Vec3.cross; ext <;> norm_num]
    rw [norm_smul_nonneg (by positivity)]
    rw [show (⟨0, 0, 1e-9⟩ : Vec3).norm = 1e-9 by
      unfold Vec3.norm
      rw [show ((⟨0, 0, 1e-9⟩ : Vec3).normSq) = (1e-9 : ℝ) ^ 2 by norm_num [Vec3.normSq]]
      exact Real.sqrt_sq (by norm_num)]
    rw [div_mul_eq_mul_div, one_mul, div_lt_iff₀ hb_norm_pos]
    nlinarith [hnorm_ge]
  have hid : rotationFromVectors ⟨1, 0, 0⟩ ⟨-1, 1e-9, 0⟩ = Mat3.id :=
    rotationFromVectors_small_s _ _ hsmall
  refine ⟨?_, hid, ?_⟩
  · intro h
    have h1 := congrArg Vec3.z h
    norm_num [Vec3.cross, Vec3.zero] at h1
  · rw [hid, ex_normalize]
    intro h
    have h1 := congrArg Vec3.x h
    rw [hbn] at h1
    unfold Mat3.mulVec Mat3.id Vec3.smul at h1
    dsimp only at h1
    have hlt : 1 / ({ x := -1, y := 1e-9, z := 0 } : Vec3).norm * (-1) < 0 :=
      mul_neg_of_pos_of_neg (div_pos one_pos hb_norm_pos) (by norm_num)
    linarith [h1, hlt]

/-- C6 (amended): for nonzero vectors a, b whose computation takes the
generic Rodrigues branch -- the cross product of the normalized pair has
norm at least 1e-8 and their dot product is not np.isclose to -1 -- the
rotation returned by rotation_from_vectors maps normalize(a) exactly onto
normalize(b).  (Near-parallel and near-antiparallel non-parallel pairs
fall outside this branch and are handled by the identity and canned
180-degree branches, which do not satisfy the exact mapping property;
see the counterexample.) -/
theorem spec_C6_rotation_maps_normalized (a b : Vec3)
    (ha : a ≠ Vec3.zero) (hb : b ≠ Vec3.zero)
    (hs : ¬ (Vec3.cross a.normalize b.normalize).norm < 1e-8)
    (hc : ¬ npIsClose (Vec3.dot a.normalize b.normalize) (-1)) :
    (rotationFromVectors a b).mulVec a.normalize = b.normalize :=
  rotationFromVectors_maps a b ha hb hs hc

/-- Witness for C6 at a = (1,0,0), b = (0,1,0): the hypotheses hold and
the rotation maps normalize(a) to normalize(b). -/
theorem spec_C6_witness :
    (⟨1, 0, 0⟩ : Vec3) ≠ Vec3.zero ∧ (⟨0, 1, 0⟩ : Vec3) ≠ Vec3.zero ∧
    ¬ (Vec3.cross (⟨1, 0, 0⟩ : Vec3).normalize (⟨0, 1, 0⟩ : Vec3).normalize).norm < 1e-8 ∧
    ¬ npIsClose (Vec3.dot (⟨1, 0, 0⟩ : Vec3).normalize (⟨0, 1, 0⟩ : Vec3).normalize) (-1) ∧
    (rotationFromVectors ⟨1, 0, 0⟩ ⟨0, 1, 0⟩).mulVec (⟨1, 0, 0⟩ : Vec3).normalize =
      (⟨0, 1, 0⟩ : Vec3).normalize := by
  have hcross : Vec3.cross (⟨1, 0, 0⟩ : Vec3).normalize (⟨0, 1, 0⟩ : Vec3).normalize =
      ⟨0, 0, 1⟩ := by
    rw [ex_normalize, ey_normalize]
    unfold Vec3.cross
    ext <;> norm_num
  have hs : ¬ (Vec3.cross (⟨1, 0, 0⟩ : Vec3).normalize (⟨0, 1, 0⟩ : Vec3).normalize).norm
      < 1e-8 := by
    rw [hcross]
    rw [show ((⟨0, 0, 1⟩ : Vec3).norm) = 1 by
      unfold Vec3.norm
      rw [show ((⟨0, 0, 1⟩ : Vec3).normSq) = 1 by norm_num [Vec3.normSq]]
      exact Real.sqrt_one]
    norm_num
  have hc : ¬ npIsClose (Vec3.dot (⟨1, 0, 0⟩ : Vec3).normalize (⟨0, 1, 0⟩ : Vec3).normalize)
      (-1) := by
    rw [ex_normalize, ey_normalize]
    rw [show Vec3.dot (⟨1, 0, 0⟩ : Vec3) ⟨0, 1, 0⟩ = 0 by unfold Vec3.dot; norm_num]
    unfold npIsClose
    rw [show |(0 : ℝ) - -1| = 1 by norm_num, show |(-1 : ℝ)| = 1 by norm_num]
    norm_num
  exact ⟨ex_ne_zero, ey_ne_zero, hs, hc,
    spec_C6_rotation_maps_normalized _ _ ex_ne_zero ey_ne_zero hs hc⟩

lemma meshSum_translate (t : Vec3) (m : List Vec3) :
    meshSum (translateMesh t m) = Vec3.add (meshSum m) (Vec3.smul (m.length : ℝ) t) := by
  induction m with
  | nil =>
    unfold meshSum translateMesh
    ext <;> simp [Vec3.add, Vec3.smul, Vec3.zero]
  | cons a l ih =>
    unfold meshSum translateMesh at *
    simp only [List.map_cons, List.foldr_cons, List.length_cons] at *
    rw [ih]
    ext <;> dsimp only [Vec3.add, Vec3.smul] <;> push_cast <;> ring

lemma meshSum_scale (k : ℝ) (m : List Vec3) :
    meshSum (scaleMeshBy k m) = Vec3.smul k (meshSum m) := by
  induction m with
  | nil =>
    unfold meshSum scaleMeshBy
    ext <;> simp [Vec3.smul, Vec3.zero]
  | cons a l ih =>
    unfold meshSum scaleMeshBy at *
    simp only [List.map_cons, List.foldr_cons] at *
    rw [ih]
    ext <;> dsimp only [Vec3.add, Vec3.smul] <;> ring

lemma centroid_translate (t : Vec3) (m : List Vec3) (hm : m ≠ []) :
    centroid (translateMesh t m) = Vec3.add (centroid m) t := by
  have hn : ((m.length : ℝ)) ≠ 0 := by
    have := List.length_pos.mpr hm
    positivity
  unfold centroid
  rw [show (translateMesh t m).length = m.length by unfold translateMesh; simp]
  rw [meshSum_translate]
  ext <;> dsimp only [Vec3.add, Vec3.smul] <;> field_simp <;> ring

lemma centroid_scale (k : ℝ) (m : List Vec3) :
    centroid (scaleMeshBy k m) = Vec3.smul k (centroid m) := by
  unfold centroid
  rw [show (scaleMeshBy k m).length = m.length by unfold scaleMeshBy; simp]
  rw [meshSum_scale]
  ext <;> dsimp only [Vec3.smul] <;> ring

lemma foldl_max_map_add (c : ℝ) (l : List ℝ) (a : ℝ) :
    (l.map (fun v => v + c)).foldl max (a + c) = l.foldl max a + c := by
  induction l generalizing a with
  | nil => simp
  | cons x t ih =>
    simp only [List.map_cons, List.foldl_cons]
    rw [max_add_add_right, ih]

lemma foldl_min_map_add (c : ℝ) (l : List ℝ) (a : ℝ) :
    (l.map (fun v => v + c)).foldl min (a + c) = l.foldl min a + c := by
  induction l generalizing a with
  | nil => simp
  | cons x t ih =>
    simp only [List.map_cons, List.foldl_cons]
    rw [min_add_add_right, ih]

lemma foldl_max_map_mul {k : ℝ} (hk : 0 ≤ k) (l : List ℝ) (a : ℝ) :
    (l.map (fun v => k * v)).foldl max (k * a) = k * l.foldl max a := by
  induction l generalizing a with
  | nil => simp
  | cons x t ih =>
    simp only [List.map_cons, List.foldl_cons]
    rw [← mul_max_of_nonneg _ _ hk, ih]

lemma foldl_min_map_mul {k : ℝ} (hk : 0 ≤ k) (l : List ℝ) (a : ℝ) :
    (l.map (fun v => k * v)).foldl min (k * a) = k * l.foldl min a := by
  induction l generalizing a with
  | nil => simp
  | cons x t ih =>
    simp only [List.map_cons, List.foldl_cons]
    rw [← mul_min_of_nonneg _ _ hk, ih]

lemma listMax_map_add (c : ℝ) {l : List ℝ} (hl : l ≠ []) :
    listMax (l.map (fun v => v + c)) = listMax l + c := by
  cases l with
  | nil => exact absurd rfl hl
  | cons x t =>
    unfold listMax
    simp only [List.map_cons]
    exact foldl_max_map_add c t x

lemma listMin_map_add (c : ℝ) {l : List ℝ} (hl : l ≠ []) :
    listMin (l.map (fun v => v + c)) = listMin l + c := by
  cases l with
  | nil => exact absurd rfl hl
  | cons x t =>
    unfold listMin
    simp only [List.map_cons]
    exact foldl_min_map_add c t x

lemma listMax_map_mul {k : ℝ} (hk : 0 ≤ k) (l : List ℝ) :
    listMax (l.map (fun v => k * v)) = k * listMax l := by
  cases l with
  | nil => unfold listMax; simp
  | cons x t =>
    unfold listMax
    simp only [List.map_cons]
    exact foldl_max_map_mul hk t x

lemma listMin_map_mul {k : ℝ} (hk : 0 ≤ k) (l : List ℝ) :
    listMin (l.map (fun v => k * v)) = k * listMin l := by
  cases l with
  | nil => unfold listMin; simp
  | cons x t =>
    unfold listMin
    simp only [List.map_cons]
    exact foldl_min_map_mul hk t x

lemma init_le_foldl_max (l : List ℝ) (a : ℝ) : a ≤ l.foldl max a := by
  induction l generalizing a with
  | nil => simp
  | cons x t ih => exact le_trans (le_max_left a x) (ih (max a x))

lemma foldl_min_le_init (l : List ℝ) (a : ℝ) : l.foldl min a ≤ a := by
  induction l generalizing a with
  | nil => simp
  | cons x t ih => exact le_trans (ih (min a x)) (min_le_left a x)

lemma listMin_le_listMax (l : List ℝ) : listMin l ≤ listMax l := by
  cases l with
  | nil => unfold listMin listMax; simp
  | cons x t =>
    unfold listMin listMax
    exact le_trans (foldl_min_le_init t x) (init_le_foldl_max t x)

lemma axisExtent_nonneg (f : Vec3 → ℝ) (m : List Vec3) : 0 ≤ axisExtent f m := by
  unfold axisExtent
  have := listMin_le_listMax (m.map f)
  linarith

lemma maxExtent_nonneg (m : List Vec3) : 0 ≤ maxExtent m := by
  unfold maxExtent
  have h := axisExtent_nonneg Vec3.z m
  exact le_trans h (le_max_right _ _)

lemma axisExtent_translate_of_map (f : Vec3 → ℝ) (c : ℝ) (t : Vec3) (m : List Vec3)
    (hm : m ≠ [])
    (hmap : (translateMesh t m).map f = (m.map f).map (fun r => r + c)) :
    axisExtent f (translateMesh t m) = axisExtent f m := by
  unfold axisExtent
  rw [hmap]
  have hl : m.map f ≠ [] := by
    intro h
    exact hm (List.map_eq_nil_iff.mp h)
  rw [listMax_map_add _ hl, listMin_map_add _ hl]
  ring

lemma axisExtent_scale_of_map (f : Vec3 → ℝ) {k : ℝ} (hk : 0 ≤ k) (m : List Vec3)
    (hmap : (scaleMeshBy k m).map f = (m.map f).map (fun r => k * r)) :
    axisExtent f (scaleMeshBy k m) = k * axisExtent f m := by
  unfold axisExtent
  rw [hmap, listMax_map_mul hk, listMin_map_mul hk]
  ring

lemma maxExtent_translate (t : Vec3) (m : List Vec3) (hm : m ≠ []) :
    maxExtent (translateMesh t m) = maxExtent m := by
  unfold maxExtent
  rw [axisExtent_translate_of_map Vec3.x t.x t m hm
      (by unfold translateMesh; rw [List.map_map, List.map_map]; rfl),
    axisExtent_translate_of_map Vec3.y t.y t m hm
      (by unfold translateMesh; rw [List.map_map, List.map_map]; rfl),
    axisExtent_translate_of_map Vec3.z t.z t m hm
      (by unfold translateMesh; rw [List.map_map, List.map_map]; rfl)]

lemma maxExtent_scale {k : ℝ} (hk : 0 ≤ k) (m : List Vec3) :
    maxExtent (scaleMeshBy k m) = k * maxExtent m := by
  unfold maxExtent
  rw [axisExtent_scale_of_map Vec3.x hk m
      (by unfold scaleMeshBy; rw [List.map_map, List.map_map]; rfl),
    axisExtent_scale_of_map Vec3.y hk m
      (by unfold scaleMeshBy; rw [List.map_map, List.map_map]; rfl),
    axisExtent_scale_of_map Vec3.z hk m
      (by unfold scaleMeshBy; rw [List.map_map, List.map_map]; rfl)]
  rw [mul_max_of_nonneg _ _ hk, mul_max_of_nonneg _ _ hk]

/-- C4: for every input mesh with nonzero maximum extent, normalization
puts the centroid exactly at the origin and makes the maximum
axis-aligned bounding-box extent exactly 1. -/
theorem spec_C4_normalization_invariant (m : List Vec3) (hext : maxExtent m ≠ 0) :
    centroid (normalizeMesh m) = Vec3.zero ∧ maxExtent (normalizeMesh m) = 1 := by
  have hm : m ≠ [] := by
    intro h
    apply hext
    subst h
    unfold maxExtent axisExtent
    simp [listMax, listMin]
  have hcentered : centroid (translateMesh (Vec3.neg (centroid m)) m) = Vec3.zero := by
    rw [centroid_translate _ _ hm]
    ext <;> dsimp only [Vec3.add, Vec3.neg, Vec3.zero] <;> ring
  have hext2 : maxExtent (translateMesh (Vec3.neg (centroid m)) m) = maxExtent m :=
    maxExtent_translate _ _ hm
  have hEpos : 0 < maxExtent m := lt_of_le_of_ne (maxExtent_nonneg m) (Ne.symm hext)
  have hshape : normalizeMesh m =
      scaleMeshBy (1 / maxExtent (translateMesh (Vec3.neg (centroid m)) m))
        (translateMesh (Vec3.neg (centroid m)) m) := rfl
  constructor
  · rw [hshape, centroid_scale, hcentered]
    ext <;> dsimp only [Vec3.smul, Vec3.zero] <;> ring
  · rw [hshape,
      maxExtent_scale (by rw [hext2]; exact div_nonneg zero_le_one (le_of_lt hEpos)) _,
      hext2]
    field_simp

/-- Witness for C4 on the two-vertex mesh (0,0,0), (1,0,0). -/
theorem spec_C4_witness :
    maxExtent [(⟨0, 0, 0⟩ : Vec3), ⟨1, 0, 0⟩] ≠ 0 ∧
    centroid (normalizeMesh [(⟨0, 0, 0⟩ : Vec3), ⟨1, 0, 0⟩]) = Vec3.zero ∧
    maxExtent (normalizeMesh [(⟨0, 0, 0⟩ : Vec3), ⟨1, 0, 0⟩]) = 1 := by
  have hext : maxExtent [(⟨0, 0, 0⟩ : Vec3), ⟨1, 0, 0⟩] ≠ 0 := by
    unfold maxExtent axisExtent
    simp only [List.map_cons, List.map_nil, listMax, listMin, List.foldl_cons, List.foldl_nil]
    rw [max_eq_right (by norm_num : (0 : ℝ) ≤ 1), min_eq_left (by norm_num : (0 : ℝ) ≤ 1),
      max_self, min_self]
    norm_num
  exact ⟨hext, (spec_C4_normalization_invariant _ hext).1,
    (spec_C4_normalization_invariant _ hext).2⟩

/-- C1 counterexample: loading the all-coincident two-vertex mesh at
(1,2,3) does not fail with DegenerateMeshError; load_mesh succeeds, and
the centered mesh has maximum extent 0, so the scale computation
1 / max(extents) is a division by zero (numpy yields inf with a
RuntimeWarning and raises nothing). -/
theorem spec_C1_counterexample :
    loadMesh (Asset.single [⟨1, 2, 3⟩, ⟨1, 2, 3⟩]) ≠
      Except.error MeshError.degenerateMesh ∧
    (loadMesh (Asset.single [⟨1, 2, 3⟩, ⟨1, 2, 3⟩])).isOk = true ∧
    maxExtent (translateMesh (Vec3.neg (centroid [(⟨1, 2, 3⟩ : Vec3), ⟨1, 2, 3⟩]))
      [(⟨1, 2, 3⟩ : Vec3), ⟨1, 2, 3⟩]) = 0 := by
  refine ⟨?_, rfl, ?_⟩
  · intro h
    simp [loadMesh] at h
  · have hc : centroid [(⟨1, 2, 3⟩ : Vec3), ⟨1, 2, 3⟩] = ⟨1, 2, 3⟩ := by
      unfold centroid meshSum
      simp only [List.foldr_cons, List.foldr_nil, List.length_cons, List.length_nil]
      ext <;> dsimp only [Vec3.smul, Vec3.add, Vec3.zero] <;> push_cast <;> ring
    rw [hc]
    have ht : translateMesh (Vec3.neg ⟨1, 2, 3⟩) [(⟨1, 2, 3⟩ : Vec3), ⟨1, 2, 3⟩] =
        [Vec3.zero, Vec3.zero] := by
      unfold translateMesh
      simp only [List.map_cons, List.map_nil]
      rw [show Vec3.add ⟨1, 2, 3⟩ (Vec3.neg ⟨1, 2, 3⟩) = Vec3.zero by
        ext <;> dsimp only [Vec3.add, Vec3.neg, Vec3.zero] <;> ring]
    rw [ht]
    unfold maxExtent axisExtent
    simp [listMax, listMin, Vec3.zero]

/-- C1 (amended): for every point p, loading the degenerate two-vertex
mesh with both vertices at p raises no error of any kind -- in particular
no DegenerateMeshError (the source defines no such check) -- and the
centered mesh has maximum extent 0, so load_mesh divides 1.0 by zero
(numpy: inf with a RuntimeWarning, no exception) and returns a mesh;
rendering then proceeds instead of writing zero files. -/
theorem spec_C1_degenerate_mesh_not_rejected (p : Vec3) :
    (loadMesh (Asset.single [p, p])).isOk = true ∧
    loadMesh (Asset.single [p, p]) ≠ Except.error MeshError.degenerateMesh ∧
    maxExtent (translateMesh (Vec3.neg (centroid [p, p])) [p, p]) = 0 := by
  refine ⟨rfl, ?_, ?_⟩
  · intro h
    simp [loadMesh] at h
  · have hc : centroid [p, p] = p := by
      unfold centroid meshSum
      simp only [List.foldr_cons, List.foldr_nil, List.length_cons, List.length_nil]
      ext <;> dsimp only [Vec3.smul, Vec3.add, Vec3.zero] <;> push_cast <;> ring
    rw [hc]
    have ht : translateMesh (Vec3.neg p) [p, p] = [Vec3.zero, Vec3.zero] := by
      unfold translateMesh
      simp only [List.map_cons, List.map_nil]
      rw [show Vec3.add p (Vec3.neg p) = Vec3.zero by
        ext <;> dsimp only [Vec3.add, Vec3.neg, Vec3.zero] <;> ring]
    rw [ht]
    unfold maxExtent axisExtent
    simp [listMax, listMin, Vec3.zero]

/-- A well-formed non-degenerate asset used to exercise the render loop. -/
def okAsset : Asset := Asset.single [⟨0, 0, 0⟩, ⟨1, 0, 0⟩]

/-- C3 counterexample: with a successful load, 3 requested views and the
rasterization call of view index 1 raising, the offscreen renderer is
acquired once but released zero times: the exception propagates past
renderer.delete(), leaking the context.  (One file, view 0, was already
written.) -/
theorem spec_C3_counterexample :
    (renderViews okAsset 3 (some 1)).rendererAcquired = 1 ∧
    (renderViews okAsset 3 (some 1)).rendererReleased = 0 ∧
    (renderViews okAsset 3 (some 1)).filesWritten = 1 ∧
    (renderViews okAsset 3 (some 1)).result = Except.error (RenderError.raster 1) :=
  ⟨rfl, rfl, rfl, rfl⟩

/-- C3 (amended): the renderer context is acquired and released exactly
once on the normal-completion path; when loading fails no context is
ever acquired; and when a rasterization call raises mid-loop the context
is acquired but never released -- the invocation propagates the error
and the context leaks, because the source has no try/finally around the
per-view loop. -/
theorem spec_C3_release_only_on_success (a : Asset) (n : ℕ) (failAt : Option ℕ) :
    ((renderViews a n failAt).result.isOk = true →
      (renderViews a n failAt).rendererAcquired = 1 ∧
      (renderViews a n failAt).rendererReleased = 1) ∧
    (∀ i, (renderViews a n failAt).result = Except.error (RenderError.raster i) →
      (renderViews a n failAt).rendererAcquired = 1 ∧
      (renderViews a n failAt).rendererReleased = 0) ∧
    (∀ e, (renderViews a n failAt).result = Except.error (RenderError.load e) →
      (renderViews a n failAt).rendererAcquired = 0 ∧
      (renderViews a n failAt).rendererReleased = 0) := by
  unfold renderViews
  cases hload : loadMesh a with
  | error e => simp [Except.isOk, Except.toBool]
  | ok msh =>
    cases hloop : renderLoop n failAt with
    | mk files res =>
      cases res with
      | error e =>
        cases e with
        | load e2 =>
          exfalso
          cases failAt with
          | none =>
            unfold renderLoop at hloop
            simp at hloop
          | some i =>
            unfold renderLoop at hloop
            dsimp only at hloop
            by_cases hi : i < n
            · rw [if_pos hi] at hloop
              simp at hloop
            · rw [if_neg hi] at hloop
              simp at hloop
        | raster i => simp [Except.isOk, Except.toBool]
      | ok u => simp [Except.isOk, Except.toBool]

/-- Witness for C3: the normal path with one view and no failure acquires
and releases the renderer exactly once. -/
theorem spec_C3_witness :
    (renderViews okAsset 1 none).rendererAcquired = 1 ∧
    (renderViews okAsset 1 none).rendererReleased = 1 :=
  (spec_C3_release_only_on_success okAsset 1 none).1 rfl

/-- C9: for every unsupported container shape, load_mesh fails with the
unsupported-asset error (the TypeError of the source, which the spec
names UnsupportedAssetError); the pipeline surfaces it to the caller,
calls load_mesh exactly once (no retry), writes no view files and never
acquires the renderer. -/
theorem spec_C9_unsupported_asset_fatal (tag : String) (n : ℕ) (failAt : Option ℕ) :
    loadMesh (Asset.unsupported tag) = Except.error MeshError.unsupportedType ∧
    (renderViews (Asset.unsupported tag) n failAt).result =
      Except.error (RenderError.load MeshError.unsupportedType) ∧
    (renderViews (Asset.unsupported tag) n failAt).filesWritten = 0 ∧
    (renderViews (Asset.unsupported tag) n failAt).loadCalls = 1 ∧
    (renderViews (Asset.unsupported tag) n failAt).rendererAcquired = 0 :=
  ⟨rfl, rfl, rfl, rfl, rfl⟩

lemma vec_cross_self (u : Vec3) : Vec3.cross u u = Vec3.zero := by
  unfold Vec3.cross Vec3.zero
  ext <;> dsimp only <;> ring

lemma vec_cross_zero_left (b : Vec3) : Vec3.cross Vec3.zero b = Vec3.zero := by
  unfold Vec3.cross Vec3.zero
  ext <;> dsimp only <;> ring

lemma smul_zero_vec (k : ℝ) : Vec3.smul k Vec3.zero = Vec3.zero := by
  unfold Vec3.smul Vec3.zero
  ext <;> dsimp only <;> ring

lemma vec_normalize_zero : Vec3.zero.normalize = Vec3.zero := smul_zero_vec _

/-- C10: look_at is partial.  Whenever target - eye is parallel to up
(target - eye = k * up for some scalar k), the cross product
forward x up is exactly the zero vector, and the returned pose's rotation
block is not a proper rotation: its first two rows are zero (numpy
produces NaN entries from the division 0/0; under the real-number
convention 0/0 = 0 they are zeros -- either way the block is not
orthonormal), and look_at raises no error.  Moreover, every (eye, target,
up) triple that create_enhanced_lighting passes to look_at avoids this
degeneracy: no light direction is parallel to its up vector. -/
theorem spec_C10_look_at_degenerate (eye target up : Vec3) (k : ℝ)
    (hpar : Vec3.sub target eye = Vec3.smul k up) :
    Vec3.cross (Vec3.sub target eye).normalize up = Vec3.zero ∧
    ¬ (lookAt eye target up).rot.IsProper ∧
    ∀ cfg ∈ lightingConfigs, ∀ j : ℝ, Vec3.sub cfg.2.1 cfg.1 ≠ Vec3.smul j cfg.2.2 := by
  have hcross : Vec3.cross (Vec3.sub target eye).normalize up = Vec3.zero := by
    rw [hpar]
    unfold Vec3.normalize
    rw [cross_smul_left, cross_smul_left, vec_cross_self, smul_zero_vec, smul_zero_vec]
  refine ⟨hcross, ?_, ?_⟩
  · intro hP
    have hdet := hP.2
    unfold lookAt at hdet
    dsimp only at hdet
    rw [hcross, vec_normalize_zero, vec_cross_zero_left] at hdet
    unfold Mat3.det at hdet
    dsimp only [Vec3.zero] at hdet
    norm_num at hdet
  · intro cfg hcfg
    fin_cases hcfg <;> intro j h <;>
      first
      | (have h1 := congrArg Vec3.x h
         dsimp only at h1
         norm_num [Vec3.sub, Vec3.smul] at h1
         done)
      | (have h1 := congrArg Vec3.z h
         dsimp only at h1
         norm_num [Vec3.sub, Vec3.smul] at h1
         done)

/-- Witness for C10: the eye directly above the target with the default
up vector: the cross product degenerates and the rotation block is not
orthonormal. -/
theorem spec_C10_witness :
    Vec3.cross (Vec3.sub ⟨0, 0, 0⟩ ⟨0, 2, 0⟩).normalize ⟨0, 1, 0⟩ = Vec3.zero ∧
    ¬ (lookAt ⟨0, 2, 0⟩ ⟨0, 0, 0⟩ ⟨0, 1, 0⟩).rot.IsProper := by
  have hp : Vec3.sub ⟨0, 0, 0⟩ ⟨0, 2, 0⟩ = Vec3.smul (-2) ⟨0, 1, 0⟩ := by
    ext <;> dsimp only [Vec3.sub, Vec3.smul] <;> norm_num
  exact ⟨(spec_C10_look_at_degenerate ⟨0, 2, 0⟩ ⟨0, 0, 0⟩ ⟨0, 1, 0⟩ (-2) hp).1,
    (spec_C10_look_at_degenerate ⟨0, 2, 0⟩ ⟨0, 0, 0⟩ ⟨0, 1, 0⟩ (-2) hp).2.1⟩
